import Mathlib

/-!
Shallow embedding of the lambda-web gateway translation layer
(src/request.rs, src/brotli.rs, src/hyper014.rs).

Rust strings are modelled as Lean `String` (a list of unicode scalar
values); byte-level operations go through an explicit UTF-8 encoder so
that the percent-encoding codec works byte-wise exactly as the
`percent_encoding` crate does.  Rust `HashMap`s are modelled as
association lists whose order stands for the map's (unspecified)
iteration order; `serde_json::Map` is modelled as an association list
with key-replacing insert, which matches the map's insert/get semantics.
-/

set_option maxRecDepth 10000

namespace LambdaWeb

/-- List concat-map helper (kept self-contained for predictable reduction). -/
def flatMapL (f : α → List β) : List α → List β
  | [] => []
  | a :: as => f a ++ flatMapL f as

/-- `Vec::join(sep)` from Rust. -/
def joinSep (sep : String) : List String → String
  | [] => ""
  | [x] => x
  | x :: y :: xs => x ++ sep ++ joinSep sep (y :: xs)

/-- Uppercase hex digit, as emitted by the `percent_encoding` crate. -/
def hexDigit (n : Nat) : Char := "0123456789ABCDEF".data.getD n '0'

/-- The three characters `%XY` that percent-encode the byte `b`. -/
def pctChars (b : Nat) : List Char := ['%', hexDigit (b / 16), hexDigit (b % 16)]

/-- UTF-8 encoding of a unicode scalar value, as a list of bytes. -/
def utf8Nat (n : Nat) : List Nat :=
  if n < 128 then [n]
  else if n < 2048 then [192 + n / 64, 128 + n % 64]
  else if n < 65536 then [224 + n / 4096, 128 + n / 64 % 64, 128 + n % 64]
  else [240 + n / 262144, 128 + n / 4096 % 64, 128 + n / 64 % 64, 128 + n % 64]

/-- UTF-8 bytes of a character. -/
def utf8Bytes (c : Char) : List Nat := utf8Nat c.toNat

/-- UTF-8 bytes of a string (Rust `str::bytes`). -/
def strBytes (s : String) : List Nat := flatMapL utf8Bytes s.data

/-- `RFC3986_PATH_ESCAPE_SET` from `src/request.rs`:
`CONTROLS` (bytes 0x00-0x1F and 0x7F) plus the added bytes
space `"` `#` `%` `+` `:` `<` `>` `?` `@` `[` backslash `]` `^`
backquote, left brace, pipe, right brace. -/
def inPathEscapeSet (b : Nat) : Bool :=
  b < 32 || b == 127 ||
  b == 32 || b == 34 || b == 35 || b == 37 || b == 43 || b == 58 ||
  b == 60 || b == 62 || b == 63 || b == 64 || b == 91 || b == 92 ||
  b == 93 || b == 94 || b == 96 || b == 123 || b == 124 || b == 125

/-- The `percent_encoding` crate escapes a byte when it is non-ASCII or
in the given `AsciiSet`. -/
def shouldPercentEncode (b : Nat) : Bool :=
  !(decide (b < 128)) || inPathEscapeSet b

/-- One byte of `utf8_percent_encode` output. -/
def encodeByte (b : Nat) : List Char :=
  if shouldPercentEncode b then pctChars b else [Char.ofNat b]

/-- `encode_path_query` from `src/request.rs`:
`percent_encoding::utf8_percent_encode(pathstr, &RFC3986_PATH_ESCAPE_SET)`. -/
def encode_path_query (s : String) : String :=
  ⟨flatMapL encodeByte (strBytes s)⟩

/-! ### Event model (src/request.rs)

Only the fields read by the verified operations are modelled; fields the
claims never touch (body, method, source ip, domain name) are elided. -/

/-- `ApiGatewayHttpV2Event` (HTTP API payload format version 2.0).
`headers` models the `HashMap<String, String>`: keys are unique and the
list order stands for the map's iteration order. -/
structure ApiGatewayHttpV2Event where
  raw_path : String
  raw_query_string : Option String
  cookies : Option (List String)
  headers : List (String × String)

/-- `ApiGatewayRestRequestContext` (only the stage-prefixed `path` is used). -/
structure ApiGatewayRestRequestContext where
  path : String

/-- `RestOrAlbRequestContext`. -/
inductive RestOrAlbRequestContext where
  | rest (context : ApiGatewayRestRequestContext)
  | alb

/-- `ApiGatewayRestEvent` (API Gateway REST API / ALB payload format). -/
structure ApiGatewayRestEvent where
  path : String
  multi_value_headers : List (String × List String)
  multi_value_query_string_parameters : Option (List (String × List String))
  request_context : RestOrAlbRequestContext

/-- `LambdaHttpEvent` (untagged union of the two payload shapes). -/
inductive LambdaHttpEvent where
  | apiGatewayHttpV2 (event : ApiGatewayHttpV2Event)
  | apiGatewayRestOrAlb (event : ApiGatewayRestEvent)

/-- `LambdaHttpEvent::path_query` from `src/request.rs`. -/
def LambdaHttpEvent.path_query : LambdaHttpEvent → String
  | .apiGatewayHttpV2 event =>
    let path := encode_path_query event.raw_path
    let query := event.raw_query_string.getD ""
    if query = "" then path else path ++ "?" ++ query
  | .apiGatewayRestOrAlb event =>
    let path :=
      match event.request_context with
      | .rest context => context.path
      | .alb => event.path
    match event.multi_value_query_string_parameters with
    | some query_string_parameters =>
      let querystr :=
        joinSep "&" (flatMapL
          (fun kv =>
            let k_enc := encode_path_query kv.1
            kv.2.map (fun v => k_enc ++ "=" ++ encode_path_query v))
          query_string_parameters)
      path ++ "?" ++ querystr
    | none => path

/-- `LambdaHttpEvent::headers` from `src/request.rs`. -/
def LambdaHttpEvent.headers : LambdaHttpEvent → List (String × String)
  | .apiGatewayHttpV2 event =>
    event.headers ++
      (match event.cookies with
       | some cookies => [("cookie", joinSep "; " cookies)]
       | none => [])
  | .apiGatewayRestOrAlb event =>
    flatMapL (fun kv => kv.2.map (fun v => (kv.1, v))) event.multi_value_headers

/-! ### Accept-Encoding scan (src/request.rs, client_supports_brotli)

Rust string helpers modelled at the character-list level. -/

/-- `u8::to_ascii_lowercase` on a character. -/
def lowerChar (c : Char) : Char :=
  if 'A' ≤ c ∧ c ≤ 'Z' then Char.ofNat (c.toNat + 32) else c

/-- `str::to_ascii_lowercase`. -/
def asciiLower (s : String) : String := ⟨s.data.map lowerChar⟩

/-- ASCII whitespace recognised by trimming. -/
def isWhite (c : Char) : Bool :=
  c.toNat == 32 || c.toNat == 9 || c.toNat == 10 || c.toNat == 13 ||
  c.toNat == 11 || c.toNat == 12

/-- `str::trim` (at the character-list level). -/
def trimChars (l : List Char) : List Char :=
  ((l.dropWhile isWhite).reverse.dropWhile isWhite).reverse

/-- `str::split(sep)`: n separators yield n+1 pieces (never empty). -/
def splitChar (sep : Char) : List Char → List (List Char)
  | [] => [[]]
  | c :: cs =>
    if c = sep then [] :: splitChar sep cs
    else
      match splitChar sep cs with
      | [] => [[c]]
      | p :: ps => (c :: p) :: ps

/-- One `accept-encoding` header value accepts brotli
(`src/request.rs`: lowercase the value, split on `,`, take each
element's part before `;`, trim, compare to `"br"`). -/
def acceptsBrotliHeaderValue (v : String) : Bool :=
  (splitChar ',' (v.data.map lowerChar)).any
    (fun elm => trimChars ((splitChar ';' elm).headD []) == ['b', 'r'])

/-- `LambdaHttpEvent::client_supports_brotli` from `src/request.rs`
(the `br` feature variant). -/
def LambdaHttpEvent.client_supports_brotli : LambdaHttpEvent → Bool
  | .apiGatewayHttpV2 event =>
    match event.headers.lookup "accept-encoding" with
    | some header_val => acceptsBrotliHeaderValue header_val
    | none => false
  | .apiGatewayRestOrAlb event =>
    match event.multi_value_headers.lookup "accept-encoding" with
    | some header_vals => header_vals.any acceptsBrotliHeaderValue
    | none => false

/-- `LambdaHttpEvent::multi_value` from `src/request.rs`. -/
def LambdaHttpEvent.multi_value : LambdaHttpEvent → Bool
  | .apiGatewayHttpV2 _ => false
  | .apiGatewayRestOrAlb _ => true

/-! ### Response side (src/brotli.rs, src/hyper014.rs) -/

/-- Standard base64 alphabet. -/
def b64Char (n : Nat) : Char :=
  "ABCDEFGHIJKLMNOPQRSTUVWXYZabcdefghijklmnopqrstuvwxyz0123456789+/".data.getD n 'A'

/-- `base64::encode` (RFC 4648 standard alphabet, padded). -/
def base64Chars : List Nat → List Char
  | [] => []
  | [a] => [b64Char (a / 4), b64Char (a % 4 * 16), '=', '=']
  | [a, b] => [b64Char (a / 4), b64Char (a % 4 * 16 + b / 16), b64Char (b % 16 * 4), '=']
  | a :: b :: c :: rest =>
    b64Char (a / 4) :: b64Char (a % 4 * 16 + b / 16) ::
      b64Char (b % 16 * 4 + c / 64) :: b64Char (c % 64) :: base64Chars rest

/-- `base64::encode` as a string. -/
def base64Encode (bytes : List Nat) : String := ⟨base64Chars bytes⟩

/-- Outcome of one run of the external `brotli::BrotliCompress` call:
the bytes it wrote to its output stream before returning, and whether it
returned `Ok`.  The compression algorithm itself is external to this
layer; the code under verification only owns what it does with this
outcome. -/
structure CompressorRun where
  written : List Nat
  ok : Bool

/-- `compress_response_body` from `src/brotli.rs`: the compressor writes
through a base64 encoder and its return value is discarded
(`let _sz = brotli::BrotliCompress(...)`), so the function returns the
base64 encoding of whatever bytes the compressor wrote. -/
def compress_response_body (run : CompressorRun) : String :=
  base64Encode run.written

/-- A hyper response as seen by the serializer: status, the header
multimap in iteration order (hyper normalises header names to
lowercase), and the collected body bytes. -/
structure HyperResponse where
  status : Nat
  headers : List (String × String)
  body : List Nat

/-- `ResponseCompression::content_encoding` for hyper responses:
the first `content-encoding` header value. -/
def contentEncodingOf (r : HyperResponse) : Option String :=
  (r.headers.find? (fun p => p.1 == "content-encoding")).map Prod.snd

/-- `ResponseCompression::content_type` for hyper responses:
the first `content-type` header value. -/
def contentTypeOf (r : HyperResponse) : Option String :=
  (r.headers.find? (fun p => p.1 == "content-type")).map Prod.snd

/-- `str::trim` on a string. -/
def trimStr (s : String) : String := ⟨trimChars s.data⟩

/-- `ResponseCompression::can_brotli_compress` from `src/brotli.rs`
(the `br` feature variant). -/
def can_brotli_compress (r : HyperResponse) : Bool :=
  match contentEncodingOf r with
  | some _ => false
  | none =>
    match contentTypeOf r with
    | some header_val =>
      let ctype := (asciiLower (trimStr header_val)).data
      "text/".data.isPrefixOf ctype ||
      "application/json".data.isPrefixOf ctype ||
      "application/xhtml".data.isPrefixOf ctype ||
      "application/xml".data.isPrefixOf ctype ||
      "application/wasm".data.isPrefixOf ctype ||
      "image/svg".data.isPrefixOf ctype
    | none => false

/-- A `serde_json` value stored in the output header map: either a
single string (v2 envelope) or an array of strings (multi-value
envelope). -/
inductive JVal where
  | str (s : String)
  | arr (vs : List String)
deriving DecidableEq

/-- Lookup in the modelled `serde_json::Map`. -/
def lookupJ (k : String) : List (String × JVal) → Option JVal
  | [] => none
  | (k', v) :: rest => if k' = k then some v else lookupJ k rest

/-- `serde_json::Map::insert`: replaces the value when the key exists. -/
def insertJ (m : List (String × JVal)) (k : String) (v : JVal) : List (String × JVal) :=
  match m with
  | [] => [(k, v)]
  | (k', v') :: rest =>
    if k' = k then (k', v) :: rest else (k', v') :: insertJ rest k v

/-- The multi-value branch of the header loop in
`api_gateway_response_from_hyper`: `get_mut` + `as_array_mut` + `push`
when the key exists, else insert a one-element array. -/
def mvInsert : List (String × JVal) → String → String → List (String × JVal)
  | [], k, v => [(k, JVal.arr [v])]
  | (k', jv) :: rest, k, v =>
    if k' = k then
      (match jv with
       | JVal.arr a => (k', JVal.arr (a ++ [v])) :: rest
       | JVal.str s => (k', JVal.str s) :: rest)
    else (k', jv) :: mvInsert rest k v

/-- The header loop of `api_gateway_response_from_hyper`
(`src/hyper014.rs`): walks the response headers in iteration order,
extracting `set-cookie` values into the cookies vector in the v2 case
and grouping values into arrays in the multi-value case. -/
def buildHeaderMapAux (multi_value : Bool)
    (acc : List String × List (String × JVal)) :
    List (String × String) → List String × List (String × JVal)
  | [] => acc
  | (k, v) :: rest =>
    let acc' :=
      if multi_value then (acc.1, mvInsert acc.2 k v)
      else if k = "set-cookie" then (acc.1 ++ [v], acc.2)
      else (acc.1, insertJ acc.2 k (JVal.str v))
    buildHeaderMapAux multi_value acc' rest

/-- The header loop, started from empty accumulators. -/
def buildHeaderMap (multi_value : Bool) (hs : List (String × String)) :
    List String × List (String × JVal) :=
  buildHeaderMapAux multi_value ([], []) hs

/-- The serialized gateway response.  `cookies = some _` corresponds to
the v2 envelope (which always carries a `cookies` array); `cookies =
none` to the multi-value envelope (whose JSON has no `cookies` key). -/
structure ApiGatewayResponse where
  isBase64Encoded : Bool
  statusCode : Nat
  cookies : Option (List String)
  headers : List (String × JVal)
  body : String

/-- `api_gateway_response_from_hyper` from `src/hyper014.rs`,
parameterised by the external brotli compressor (`brotli`). -/
def api_gateway_response_from_hyper (brotli : List Nat → CompressorRun)
    (response : HyperResponse) (client_support_br multi_value : Bool) :
    ApiGatewayResponse :=
  let compress := client_support_br && can_brotli_compress response
  let cm := buildHeaderMap multi_value response.headers
  let headers_body :=
    if compress then
      ((if multi_value then insertJ cm.2 "content-encoding" (JVal.arr ["br"])
        else insertJ cm.2 "content-encoding" (JVal.str "br")),
       compress_response_body (brotli response.body))
    else (cm.2, base64Encode response.body)
  { isBase64Encoded := true
    statusCode := response.status
    cookies := if multi_value then none else some cm.1
    headers := headers_body.1
    body := headers_body.2 }

/-! ### Helper lemmas: characters -/

theorem char_toNat_lt (c : Char) : c.toNat < 1114112 := by
  rcases c.valid with h | ⟨h1, h2⟩
  · simp [Char.toNat, UInt32.toNat, UInt32.lt_def, BitVec.lt_def] at *
    omega
  · simp [Char.toNat, UInt32.toNat, UInt32.lt_def, BitVec.lt_def] at *
    omega

theorem char_toNat_ofNat (n : Nat) (h : n.isValidChar) : (Char.ofNat n).toNat = n := by
  simp [Char.ofNat, Char.ofNatAux, Char.toNat, UInt32.ofNat', UInt32.toNat, h,
    BitVec.toNat_ofNatLt]

theorem char_ofNat_toNat (c : Char) (h : c.toNat < 55296) : Char.ofNat c.toNat = c := by
  have hv : c.toNat.isValidChar := Or.inl h
  apply Char.ext
  apply UInt32.ext
  simp only [Char.ofNat]
  rw [dif_pos hv]
  rfl

theorem char_eq_of_toNat {a b : Char} (h : a.toNat = b.toNat) : a = b := by
  apply Char.ext
  apply UInt32.ext
  simpa [Char.toNat, UInt32.toNat] using h

theorem char_eq_iff_toNat {a b : Char} : a = b ↔ a.toNat = b.toNat :=
  ⟨fun h => h ▸ rfl, char_eq_of_toNat⟩

theorem char_le_iff_toNat {a b : Char} : a ≤ b ↔ a.toNat ≤ b.toNat := by
  simp [Char.le_def, UInt32.le_def, Char.toNat, UInt32.toNat, BitVec.le_def]

/-! ### Helper lemmas: ASCII lowercasing commutes with the scan -/

theorem lowerChar_toNat (c : Char) :
    (lowerChar c).toNat =
      if 65 ≤ c.toNat ∧ c.toNat ≤ 90 then c.toNat + 32 else c.toNat := by
  unfold lowerChar
  have hA : ('A' : Char).toNat = 65 := rfl
  have hZ : ('Z' : Char).toNat = 90 := rfl
  by_cases h : 'A' ≤ c ∧ c ≤ 'Z'
  · have h1 := char_le_iff_toNat.1 h.1
    have h2 := char_le_iff_toNat.1 h.2
    rw [hA] at h1
    rw [hZ] at h2
    rw [if_pos h, char_toNat_ofNat _ (Or.inl (by omega)), if_pos ⟨h1, h2⟩]
  · have h' : ¬(65 ≤ c.toNat ∧ c.toNat ≤ 90) := by
      intro hc
      exact h ⟨char_le_iff_toNat.2 (by omega), char_le_iff_toNat.2 (by omega)⟩
    rw [if_neg h, if_neg h']

theorem lowerChar_eq_sep {sep : Char}
    (hs : sep.toNat < 65 ∨ (90 < sep.toNat ∧ sep.toNat < 97) ∨ 122 < sep.toNat)
    (c : Char) : lowerChar c = sep ↔ c = sep := by
  rw [char_eq_iff_toNat, char_eq_iff_toNat, lowerChar_toNat]
  by_cases h : 65 ≤ c.toNat ∧ c.toNat ≤ 90
  · rw [if_pos h]
    omega
  · rw [if_neg h]

theorem isWhite_lowerChar (c : Char) : isWhite (lowerChar c) = isWhite c := by
  unfold isWhite
  rw [lowerChar_toNat]
  by_cases h : 65 ≤ c.toNat ∧ c.toNat ≤ 90
  · rw [if_pos h]
    have h1 : ∀ m : Nat, 65 ≤ m → m ≤ 90 →
        ((m + 32 == 32 || (m + 32 == 9 || (m + 32 == 10 || (m + 32 == 13 ||
          (m + 32 == 11 || m + 32 == 12))))) = false ∧
         (m == 32 || (m == 9 || (m == 10 || (m == 13 || (m == 11 || m == 12))))) = false) := by
      intro m hm1 hm2
      constructor <;> simp <;> omega
    obtain ⟨e1, e2⟩ := h1 c.toNat h.1 h.2
    simp only [Bool.or_assoc] at *
    rw [e1, e2]
  · rw [if_neg h]

theorem splitChar_ne_nil (sep : Char) (l : List Char) : splitChar sep l ≠ [] := by
  induction l with
  | nil => simp [splitChar]
  | cons c cs ih =>
    simp only [splitChar]
    by_cases h : c = sep
    · simp [h]
    · rw [if_neg h]
      cases hs : splitChar sep cs with
      | nil => simp
      | cons p ps => simp

theorem splitChar_cons_exists (sep : Char) (l : List Char) :
    ∃ p ps, splitChar sep l = p :: ps := by
  cases hs : splitChar sep l with
  | nil => exact absurd hs (splitChar_ne_nil sep l)
  | cons p ps => exact ⟨p, ps, rfl⟩

theorem splitChar_map {f : Char → Char} {sep : Char}
    (hf : ∀ c, f c = sep ↔ c = sep) (l : List Char) :
    splitChar sep (l.map f) = (splitChar sep l).map (List.map f) := by
  induction l with
  | nil => rfl
  | cons c cs ih =>
    simp only [List.map_cons, splitChar]
    by_cases h : c = sep
    · rw [if_pos ((hf c).2 h), if_pos h, ih, List.map_cons, List.map_nil]
    · rw [if_neg (fun hc => h ((hf c).1 hc)), if_neg h, ih]
      obtain ⟨p, ps, hs⟩ := splitChar_cons_exists sep cs
      rw [hs, List.map_cons, List.map_cons, List.map_cons]

theorem headD_map_map (f : Char → Char) (l : List (List Char)) :
    (l.map (List.map f)).headD [] = List.map f (l.headD []) := by
  cases l <;> simp

theorem dropWhile_map_char (p : Char → Bool) (f : Char → Char) (l : List Char) :
    (l.map f).dropWhile p = (l.dropWhile (fun a => p (f a))).map f := by
  induction l with
  | nil => rfl
  | cons c cs ih =>
    simp only [List.map_cons, List.dropWhile]
    by_cases h : p (f c) = true
    · rw [h, ih]
    · rw [Bool.not_eq_true] at h
      rw [h]
      simp only [List.map_cons]

theorem trimChars_map_lower (l : List Char) :
    trimChars (l.map lowerChar) = (trimChars l).map lowerChar := by
  unfold trimChars
  have hw : (fun a => isWhite (lowerChar a)) = isWhite := funext isWhite_lowerChar
  rw [dropWhile_map_char, hw, ← List.map_reverse, dropWhile_map_char, hw,
    ← List.map_reverse]

theorem lower_comma : ∀ c, lowerChar c = ',' ↔ c = ',' :=
  lowerChar_eq_sep (Or.inl (by decide))

theorem lower_semicolon : ∀ c, lowerChar c = ';' ↔ c = ';' :=
  lowerChar_eq_sep (Or.inl (by decide))

/-- The specification's reading of the Accept-Encoding scan: split the
original value on commas, take each element's portion before a
semicolon, trim it, and compare case-insensitively to `"br"`. -/
def acceptsBrotliHeaderValueClaim (v : String) : Bool :=
  (splitChar ',' v.data).any
    (fun elm => (trimChars ((splitChar ';' elm).headD [])).map lowerChar == ['b', 'r'])

theorem acceptsBrotliHeaderValue_eq_claim (v : String) :
    acceptsBrotliHeaderValue v = acceptsBrotliHeaderValueClaim v := by
  unfold acceptsBrotliHeaderValue acceptsBrotliHeaderValueClaim
  rw [splitChar_map lower_comma, List.any_map]
  apply congrArg
  funext elm
  show (trimChars ((splitChar ';' (elm.map lowerChar)).headD []) == ['b', 'r']) = _
  rw [splitChar_map lower_semicolon, headD_map_map, trimChars_map_lower]

/-- The specification's reading of `client_accepts_brotli` over a whole
event. -/
def client_accepts_brotli_claim : LambdaHttpEvent → Bool
  | .apiGatewayHttpV2 event =>
    match event.headers.lookup "accept-encoding" with
    | some header_val => acceptsBrotliHeaderValueClaim header_val
    | none => false
  | .apiGatewayRestOrAlb event =>
    match event.multi_value_headers.lookup "accept-encoding" with
    | some header_vals => header_vals.any acceptsBrotliHeaderValueClaim
    | none => false

/-! ### Helper lemmas: the serializer's header loop -/

/-- The values carried by response headers named `k`, in iteration order. -/
def valsOf (k : String) : List (String × String) → List String
  | [] => []
  | (k', v) :: rest => if k' = k then v :: valsOf k rest else valsOf k rest

/-- The last value carried by a response header named `k`, if any. -/
def lastVal (k : String) : List (String × String) → Option String
  | [] => none
  | (k', v) :: rest =>
    match lastVal k rest with
    | some w => some w
    | none => if k' = k then some v else none

theorem lookupJ_insertJ_self (m : List (String × JVal)) (k : String) (v : JVal) :
    lookupJ k (insertJ m k v) = some v := by
  induction m with
  | nil => simp [insertJ, lookupJ]
  | cons p rest ih =>
    obtain ⟨k', v'⟩ := p
    simp only [insertJ]
    by_cases h : k' = k
    · rw [if_pos h]
      simp [lookupJ, h]
    · rw [if_neg h]
      simp [lookupJ, h, ih]

theorem lookupJ_insertJ_ne (m : List (String × JVal)) (k : String) (v : JVal)
    {q : String} (h : q ≠ k) : lookupJ q (insertJ m k v) = lookupJ q m := by
  induction m with
  | nil => simp [insertJ, lookupJ, Ne.symm h]
  | cons p rest ih =>
    obtain ⟨k', v'⟩ := p
    simp only [insertJ]
    by_cases h' : k' = k
    · rw [if_pos h']
      have hne : k' ≠ q := by
        rw [h']
        exact Ne.symm h
      simp [lookupJ, hne]
    · rw [if_neg h']
      by_cases hq : k' = q
      · simp [lookupJ, hq]
      · simp [lookupJ, hq, ih]

theorem lookupJ_mvInsert_self (m : List (String × JVal)) (k : String) (v : String) :
    lookupJ k (mvInsert m k v) =
      (match lookupJ k m with
       | some (JVal.arr a) => some (JVal.arr (a ++ [v]))
       | some (JVal.str s) => some (JVal.str s)
       | none => some (JVal.arr [v])) := by
  induction m with
  | nil => simp [mvInsert, lookupJ]
  | cons p rest ih =>
    obtain ⟨k', jv⟩ := p
    simp only [mvInsert]
    by_cases h : k' = k
    · rw [if_pos h]
      cases jv <;> simp [lookupJ, h]
    · rw [if_neg h]
      simp [lookupJ, h, ih]

theorem lookupJ_mvInsert_ne (m : List (String × JVal)) (k : String) (v : String)
    {q : String} (h : q ≠ k) : lookupJ q (mvInsert m k v) = lookupJ q m := by
  induction m with
  | nil => simp [mvInsert, lookupJ, Ne.symm h]
  | cons p rest ih =>
    obtain ⟨k', jv⟩ := p
    simp only [mvInsert]
    by_cases h' : k' = k
    · rw [if_pos h']
      have hne : k' ≠ q := by
        rw [h']
        exact Ne.symm h
      cases jv <;> simp [lookupJ, hne]
    · rw [if_neg h']
      by_cases hq : k' = q
      · simp [lookupJ, hq]
      · simp [lookupJ, hq, ih]

theorem buildAux_false_cookies (hs : List (String × String))
    (cs : List String) (m : List (String × JVal)) :
    (buildHeaderMapAux false (cs, m) hs).1 = cs ++ valsOf "set-cookie" hs := by
  induction hs generalizing cs m with
  | nil => simp [buildHeaderMapAux, valsOf]
  | cons p rest ih =>
    obtain ⟨k, v⟩ := p
    simp only [buildHeaderMapAux, valsOf, Bool.false_eq_true, if_false]
    by_cases h : k = "set-cookie"
    · rw [if_pos h, if_pos h, ih]
      simp
    · rw [if_neg h, if_neg h, ih]

theorem buildAux_false_lookup_sc (hs : List (String × String))
    (cs : List String) (m : List (String × JVal)) :
    lookupJ "set-cookie" (buildHeaderMapAux false (cs, m) hs).2 =
      lookupJ "set-cookie" m := by
  induction hs generalizing cs m with
  | nil => simp [buildHeaderMapAux]
  | cons p rest ih =>
    obtain ⟨k, v⟩ := p
    simp only [buildHeaderMapAux, Bool.false_eq_true, if_false]
    by_cases h : k = "set-cookie"
    · rw [if_pos h, ih]
    · rw [if_neg h, ih, lookupJ_insertJ_ne _ _ _ (fun hc => h hc.symm)]

theorem buildAux_false_lookup (hs : List (String × String))
    (cs : List String) (m : List (String × JVal)) (k : String)
    (hk : k ≠ "set-cookie") :
    lookupJ k (buildHeaderMapAux false (cs, m) hs).2 =
      (match lastVal k hs with
       | some w => some (JVal.str w)
       | none => lookupJ k m) := by
  induction hs generalizing cs m with
  | nil => simp [buildHeaderMapAux, lastVal]
  | cons p rest ih =>
    obtain ⟨k', v⟩ := p
    simp only [buildHeaderMapAux, lastVal, Bool.false_eq_true, if_false]
    by_cases h : k' = "set-cookie"
    · rw [if_pos h, ih]
      have hne : k' ≠ k := fun hc => hk (hc ▸ h)
      rw [if_neg hne]
      cases lastVal k rest <;> rfl
    · rw [if_neg h, ih]
      by_cases hq : k' = k
      · rw [if_pos hq]
        cases lastVal k rest with
        | some w => rfl
        | none =>
          rw [hq]
          simp [lookupJ_insertJ_self]
      · rw [if_neg hq]
        cases lastVal k rest with
        | some w => rfl
        | none => simp [lookupJ_insertJ_ne _ _ _ (fun hc => hq hc.symm)]

theorem buildAux_true_cookies (hs : List (String × String))
    (cs : List String) (m : List (String × JVal)) :
    (buildHeaderMapAux true (cs, m) hs).1 = cs := by
  induction hs generalizing cs m with
  | nil => rfl
  | cons p rest ih =>
    obtain ⟨k, v⟩ := p
    simp only [buildHeaderMapAux, if_true]
    exact ih cs (mvInsert m k v)

/-- How the multi-value header loop combines an existing map entry with
the remaining values for the same key. -/
def mvCombine : Option JVal → List String → Option JVal
  | some (JVal.str s), _ => some (JVal.str s)
  | some (JVal.arr a), vs => some (JVal.arr (a ++ vs))
  | none, [] => none
  | none, v :: vs => some (JVal.arr (v :: vs))

theorem buildAux_true_lookup (hs : List (String × String))
    (cs : List String) (m : List (String × JVal)) (k : String) :
    lookupJ k (buildHeaderMapAux true (cs, m) hs).2 =
      mvCombine (lookupJ k m) (valsOf k hs) := by
  induction hs generalizing cs m with
  | nil =>
    simp only [buildHeaderMapAux, valsOf]
    cases h : lookupJ k m with
    | none => rfl
    | some jv => cases jv <;> simp [mvCombine]
  | cons p rest ih =>
    obtain ⟨k', v⟩ := p
    simp only [buildHeaderMapAux, valsOf, if_true]
    by_cases h : k' = k
    · rw [if_pos h, ih, h, lookupJ_mvInsert_self]
      cases hm : lookupJ k m with
      | none =>
        cases hv : valsOf k rest <;> simp [mvCombine]
      | some jv =>
        cases jv with
        | str s => rfl
        | arr a =>
          cases hv : valsOf k rest <;> simp [mvCombine]
    · rw [if_neg h, ih, lookupJ_mvInsert_ne _ _ _ (fun hc => h hc.symm)]

/-! ### Helper lemmas: the percent-encoding codec, character by character -/

theorem flatMapL_append (f : α → List β) (l1 l2 : List α) :
    flatMapL f (l1 ++ l2) = flatMapL f l1 ++ flatMapL f l2 := by
  induction l1 with
  | nil => rfl
  | cons a as ih => simp [flatMapL, ih]

theorem flatMapL_flatMapL (f : α → List β) (g : β → List γ) (l : List α) :
    flatMapL g (flatMapL f l) = flatMapL (fun a => flatMapL g (f a)) l := by
  induction l with
  | nil => rfl
  | cons a as ih => simp [flatMapL, flatMapL_append, ih]

theorem flatMapL_congr {f g : α → List β} (l : List α)
    (h : ∀ a ∈ l, f a = g a) : flatMapL f l = flatMapL g l := by
  induction l with
  | nil => rfl
  | cons a as ih =>
    simp only [flatMapL]
    rw [h a (by simp), ih (fun a ha => h a (by simp [ha]))]

/-- The escape set exactly as the specification lists it: control
characters (0x00-0x1F and 0x7F), space, double quote, hash, percent,
plus, colon, less-than, greater-than, question mark, at sign, square
brackets, backslash, caret, backquote, braces, pipe. -/
def specPathEscape (b : Nat) : Bool :=
  b ≤ 31 || b == 127 ||
  [32, 34, 35, 37, 43, 58, 60, 62, 63, 64, 91, 92,
   93, 94, 96, 123, 124, 125].contains b

theorem specPathEscape_eq_code : ∀ b < 128, specPathEscape b = inPathEscapeSet b := by
  decide

/-- The specification's per-character contract for the codec: an ASCII
character in the escape set becomes `%XX`, any other ASCII character is
left untouched, and a non-ASCII character is percent-encoded byte-wise
over its UTF-8 bytes. -/
def encodeCharClaim (c : Char) : List Char :=
  if c.toNat < 128 then
    (if specPathEscape c.toNat then pctChars c.toNat else [c])
  else flatMapL pctChars (utf8Bytes c)

theorem utf8Nat_ge_128 (n : Nat) (h : 128 ≤ n) : ∀ b ∈ utf8Nat n, 128 ≤ b := by
  intro b hb
  unfold utf8Nat at hb
  rw [if_neg (by omega)] at hb
  by_cases h2 : n < 2048
  · rw [if_pos h2] at hb
    simp at hb
    rcases hb with hb | hb <;> omega
  · rw [if_neg h2] at hb
    by_cases h3 : n < 65536
    · rw [if_pos h3] at hb
      simp at hb
      rcases hb with hb | hb | hb <;> omega
    · rw [if_neg h3] at hb
      simp at hb
      rcases hb with hb | hb | hb | hb <;> omega

theorem encodeByte_of_ge (b : Nat) (h : 128 ≤ b) : encodeByte b = pctChars b := by
  unfold encodeByte shouldPercentEncode
  rw [decide_eq_false (by omega)]
  rfl

theorem encodeByte_of_lt (b : Nat) (h : b < 128) :
    encodeByte b = if inPathEscapeSet b then pctChars b else [Char.ofNat b] := by
  unfold encodeByte shouldPercentEncode
  rw [decide_eq_true h]
  rfl

theorem encodeChar_code_eq_claim (c : Char) :
    flatMapL encodeByte (utf8Bytes c) = encodeCharClaim c := by
  unfold encodeCharClaim
  by_cases h : c.toNat < 128
  · rw [if_pos h]
    have hu : utf8Bytes c = [c.toNat] := by
      unfold utf8Bytes utf8Nat
      rw [if_pos h]
    rw [hu]
    show encodeByte c.toNat ++ [] = _
    rw [List.append_nil, encodeByte_of_lt c.toNat h,
      ← specPathEscape_eq_code c.toNat h, char_ofNat_toNat c (by omega)]
  · rw [if_neg h]
    exact flatMapL_congr _ (fun b hb =>
      encodeByte_of_ge b (utf8Nat_ge_128 c.toNat (by omega) b hb))

theorem encode_path_query_chars (s : String) :
    encode_path_query s = ⟨flatMapL encodeCharClaim s.data⟩ := by
  unfold encode_path_query strBytes
  rw [flatMapL_flatMapL]
  exact congrArg String.mk (flatMapL_congr _ (fun c _ => encodeChar_code_eq_claim c))

/-! ### Claim-side definitions for the request path -/

/-- The specification's reading of the v2 path-and-query: the
codec-encoded `rawPath`, followed by `?` and the raw query string
verbatim when it is non-empty. -/
def path_query_v2_claim (event : ApiGatewayHttpV2Event) : String :=
  match event.raw_query_string with
  | some q =>
    if q = "" then encode_path_query event.raw_path
    else encode_path_query event.raw_path ++ "?" ++ q
  | none => encode_path_query event.raw_path

/-- The path selected for a RestOrAlb event: the stage-prefixed request
context path for REST, the event's own path for ALB. -/
def restPathOf (event : ApiGatewayRestEvent) : String :=
  match event.request_context with
  | .rest context => context.path
  | .alb => event.path

/-- The flattened, codec-encoded query string built from
`multiValueQueryStringParameters` (iterate keys, then each key's
values, codec-encode each key and value). -/
def queryStringOf (ps : List (String × List String)) : String :=
  joinSep "&" (flatMapL
    (fun kv => kv.2.map (fun v => encode_path_query kv.1 ++ "=" ++ encode_path_query v))
    ps)

/-- The claim's reading of the RestOrAlb path-and-query: the selected
path is itself codec-encoded before the query string is appended. -/
def path_query_rest_claim (event : ApiGatewayRestEvent) : String :=
  match event.multi_value_query_string_parameters with
  | some ps => encode_path_query (restPathOf event) ++ "?" ++ queryStringOf ps
  | none => encode_path_query (restPathOf event)

/-- The amended reading of the RestOrAlb path-and-query: the selected
path is used verbatim (it arrives still percent-encoded), and only the
query keys and values are codec-encoded. -/
def path_query_rest_amended (event : ApiGatewayRestEvent) : String :=
  match event.multi_value_query_string_parameters with
  | some ps => restPathOf event ++ "?" ++ queryStringOf ps
  | none => restPathOf event

/-- The claim's query escape set: everything the path encoding escapes
plus `/` (47) and `?` (63). -/
def specQueryEscape (b : Nat) : Bool :=
  specPathEscape b || b == 47 || b == 63

/-- The claim's query codec: byte-wise percent-encoding over the
extended query escape set. -/
def encodeQueryByteClaim (b : Nat) : List Char :=
  if !(decide (b < 128)) || specQueryEscape b then pctChars b else [Char.ofNat b]

/-- The claim's query codec on strings. -/
def encode_query_claim (s : String) : String :=
  ⟨flatMapL encodeQueryByteClaim (strBytes s)⟩

/-- The query string as the claim would build it, with the extended
query escape set applied to keys and values. -/
def queryStringClaimQ (ps : List (String × List String)) : String :=
  joinSep "&" (flatMapL
    (fun kv => kv.2.map (fun v => encode_query_claim kv.1 ++ "=" ++ encode_query_claim v))
    ps)

/-- The claim's reading of the RestOrAlb path-and-query under the
extended query escape set (path verbatim, query re-encoded with the
extended set). -/
def path_query_rest_claimq (event : ApiGatewayRestEvent) : String :=
  match event.multi_value_query_string_parameters with
  | some ps => restPathOf event ++ "?" ++ queryStringClaimQ ps
  | none => restPathOf event

/-- Modelled from the spec: an element of the v2 `cookies` array is a
valid encoded cookie when it contains an `=` separator and consists of
printable ASCII characters only. -/
def isValidEncodedCookie (s : String) : Bool :=
  s.data.any (fun c => c = '=') &&
  s.data.all (fun c => 32 ≤ c.toNat && c.toNat ≤ 126)

/-- The claim's reading of the v2 header list: the event headers
followed by one synthetic `cookie` header joining only the valid
elements of the `cookies` array. -/
def headers_v2_claim (event : ApiGatewayHttpV2Event) : List (String × String) :=
  event.headers ++
    (match event.cookies with
     | some cookies =>
       [("cookie", joinSep "; " (cookies.filter isValidEncodedCookie))]
     | none => [])

/-! ### Claims C1, C2, C3, C5, C6, C7 -/

/-- C1: for every HttpApiV2 event the normalized path-and-query is the
codec-encoded rawPath followed, when rawQueryString is non-empty, by `?`
and the rawQueryString verbatim; when it is empty or absent the result
is the encoded path alone.  In particular rawPath `/somewhere` with
rawQueryString `key=value` normalizes to `/somewhere?key=value`. -/
theorem C1_v2_path_query :
    (∀ event : ApiGatewayHttpV2Event,
       LambdaHttpEvent.path_query (.apiGatewayHttpV2 event) = path_query_v2_claim event) ∧
    LambdaHttpEvent.path_query
      (.apiGatewayHttpV2 ⟨"/somewhere", some "key=value", none, []⟩) =
      "/somewhere?key=value" := by
  constructor
  · intro event
    simp only [LambdaHttpEvent.path_query, path_query_v2_claim]
    cases event.raw_query_string with
    | none => simp [Option.getD]
    | some q =>
      by_cases h : q = ""
      · simp [Option.getD, h]
      · simp [Option.getD, h]
  · decide

/-- C2: the percent-encoding codec escapes exactly the RFC3986-unsafe
path characters, leaves all other ASCII characters untouched, and
percent-encodes multi-byte UTF-8 characters byte-wise; with the three
literal examples from the specification. -/
theorem C2_codec_charwise :
    (∀ s : String, encode_path_query s = ⟨flatMapL encodeCharClaim s.data⟩) ∧
    encode_path_query "/path with/space" = "/path%20with/space" ∧
    encode_path_query "/path%with/percent" = "/path%25with/percent" ∧
    encode_path_query "/日本語/ファイル名" =
      "/%E6%97%A5%E6%9C%AC%E8%AA%9E/%E3%83%95%E3%82%A1%E3%82%A4%E3%83%AB%E5%90%8D" :=
  ⟨encode_path_query_chars, by decide, by decide, by decide⟩

/-- C3 counterexample: the claim says the RestOrAlb path is itself
codec-encoded, but the code uses it verbatim: an ALB event whose path
contains a space is passed through unencoded. -/
theorem C3_counterexample :
    LambdaHttpEvent.path_query
      (.apiGatewayRestOrAlb ⟨"/path with/space", [], none, .alb⟩) = "/path with/space" ∧
    path_query_rest_claim ⟨"/path with/space", [], none, .alb⟩ = "/path%20with/space" ∧
    LambdaHttpEvent.path_query
      (.apiGatewayRestOrAlb ⟨"/path with/space", [], none, .alb⟩) ≠
      path_query_rest_claim ⟨"/path with/space", [], none, .alb⟩ := by
  refine ⟨by decide, by decide, by decide⟩

/-- C3 amended: for every RestOrAlb event the normalized path-and-query
is the event's path used verbatim (REST keeps its stage prefix, ALB has
none, and neither is re-encoded) followed, when
multiValueQueryStringParameters is present, by `?` plus the `&`-joined
codec-encoded `key=value` pairs in key order then value order. -/
theorem C3_rest_path_query_amended :
    (∀ event : ApiGatewayRestEvent,
       LambdaHttpEvent.path_query (.apiGatewayRestOrAlb event) =
         path_query_rest_amended event) ∧
    LambdaHttpEvent.path_query
      (.apiGatewayRestOrAlb
        ⟨"/somewhere", [], some [("key", ["value"])], .rest ⟨"/stage/somewhere"⟩⟩) =
      "/stage/somewhere?key=value" := by
  constructor
  · intro event
    obtain ⟨path, mvh, mvqs, ctx⟩ := event
    cases mvqs <;> cases ctx <;> rfl
  · decide

/-- C5 counterexample: the claim says query keys and values are escaped
with the path set extended by `/` and `?`, but the code applies the very
path codec to them: a query value `/` is emitted unescaped where the
claim demands `%2F`. -/
theorem C5_counterexample :
    LambdaHttpEvent.path_query
      (.apiGatewayRestOrAlb ⟨"/p", [], some [("key", ["/"])], .alb⟩) = "/p?key=/" ∧
    path_query_rest_claimq ⟨"/p", [], some [("key", ["/"])], .alb⟩ = "/p?key=%2F" ∧
    LambdaHttpEvent.path_query
      (.apiGatewayRestOrAlb ⟨"/p", [], some [("key", ["/"])], .alb⟩) ≠
      path_query_rest_claimq ⟨"/p", [], some [("key", ["/"])], .alb⟩ := by
  refine ⟨by decide, by decide, by decide⟩

/-- C5 amended: RestOrAlb query keys and values are encoded with exactly
the same codec as paths — the common escape set already contains `?`,
and `/` is not escaped anywhere. -/
theorem C5_query_codec_amended :
    (∀ (event : ApiGatewayRestEvent) (ps : List (String × List String)),
       event.multi_value_query_string_parameters = some ps →
       LambdaHttpEvent.path_query (.apiGatewayRestOrAlb event) =
         restPathOf event ++ "?" ++ queryStringOf ps) ∧
    encode_path_query "?" = "%3F" ∧
    encode_path_query "/" = "/" := by
  refine ⟨?_, by decide, by decide⟩
  intro event ps h
  obtain ⟨path, mvh, mvqs, ctx⟩ := event
  simp only at h
  subst h
  cases ctx <;> rfl

/-- C5 amended, witness: a concrete RestOrAlb event whose query value
contains a space, exercising the common codec in query position. -/
theorem C5_query_codec_amended_witness :
    LambdaHttpEvent.path_query
      (.apiGatewayRestOrAlb ⟨"/p", [], some [("key", ["va lue"])], .alb⟩) =
      restPathOf ⟨"/p", [], some [("key", ["va lue"])], .alb⟩ ++ "?" ++
        queryStringOf [("key", ["va lue"])] :=
  C5_query_codec_amended.1 ⟨"/p", [], some [("key", ["va lue"])], .alb⟩
    [("key", ["va lue"])] rfl

/-- C6 counterexample: the claim says each element of the v2 cookies
array is validated and invalid elements are dropped, but the code joins
every element unconditionally: an element containing a control character
survives into the synthetic cookie header. -/
theorem C6_counterexample :
    LambdaHttpEvent.headers
      (.apiGatewayHttpV2 ⟨"/", none, some ["cookie1=value1", "\x00bad"], []⟩) =
      [("cookie", "cookie1=value1; \x00bad")] ∧
    headers_v2_claim ⟨"/", none, some ["cookie1=value1", "\x00bad"], []⟩ =
      [("cookie", "cookie1=value1")] ∧
    isValidEncodedCookie "\x00bad" = false ∧
    isValidEncodedCookie "cookie1=value1" = true ∧
    LambdaHttpEvent.headers
      (.apiGatewayHttpV2 ⟨"/", none, some ["cookie1=value1", "\x00bad"], []⟩) ≠
      headers_v2_claim ⟨"/", none, some ["cookie1=value1", "\x00bad"], []⟩ := by
  refine ⟨by decide, by decide, by decide, by decide, by decide⟩

/-- C6 amended: every element of a present v2 cookies array — valid or
not — is joined with `"; "` in array order into one synthetic `cookie`
header appended to the header list; the two-cookie example merges to
`cookie1=value1; cookie2=value2`. -/
theorem C6_v2_cookie_merge_amended :
    (∀ (raw_path : String) (rqs : Option String) (cookies : List String)
       (hdrs : List (String × String)),
       LambdaHttpEvent.headers (.apiGatewayHttpV2 ⟨raw_path, rqs, some cookies, hdrs⟩) =
         hdrs ++ [("cookie", joinSep "; " cookies)]) ∧
    joinSep "; " ["cookie1=value1", "cookie2=value2"] =
      "cookie1=value1; cookie2=value2" := by
  refine ⟨fun raw_path rqs cookies hdrs => rfl, by decide⟩

/-- C7: client_accepts_brotli is true exactly when some accept-encoding
header instance, split on commas, has an element whose portion before a
semicolon, trimmed and compared case-insensitively, equals `br`; with
the literal examples (`gzip, br;q=0.8` accepts, `gzip` or no header does
not). -/
theorem C7_accept_encoding_scan :
    (∀ event : LambdaHttpEvent,
       event.client_supports_brotli = client_accepts_brotli_claim event) ∧
    LambdaHttpEvent.client_supports_brotli
      (.apiGatewayHttpV2 ⟨"/", none, none, [("accept-encoding", "gzip, br;q=0.8")]⟩) = true ∧
    LambdaHttpEvent.client_supports_brotli
      (.apiGatewayHttpV2 ⟨"/", none, none, [("accept-encoding", "gzip")]⟩) = false ∧
    LambdaHttpEvent.client_supports_brotli
      (.apiGatewayHttpV2 ⟨"/", none, none, []⟩) = false := by
  refine ⟨?_, by decide, by decide, by decide⟩
  intro event
  cases event with
  | apiGatewayHttpV2 event =>
    simp only [LambdaHttpEvent.client_supports_brotli, client_accepts_brotli_claim]
    cases event.headers.lookup "accept-encoding" with
    | none => rfl
    | some header_val => exact acceptsBrotliHeaderValue_eq_claim header_val
  | apiGatewayRestOrAlb event =>
    simp only [LambdaHttpEvent.client_supports_brotli, client_accepts_brotli_claim]
    cases event.multi_value_headers.lookup "accept-encoding" with
    | none => rfl
    | some header_vals =>
      exact congrArg header_vals.any (funext acceptsBrotliHeaderValue_eq_claim)

/-! ### Helper lemmas: the serializer as a whole -/

theorem agr_body (brotli : List Nat → CompressorRun) (r : HyperResponse)
    (cbr mv : Bool) :
    (api_gateway_response_from_hyper brotli r cbr mv).body =
      (if cbr && can_brotli_compress r then base64Encode (brotli r.body).written
       else base64Encode r.body) := by
  by_cases h : (cbr && can_brotli_compress r) = true
  · simp [api_gateway_response_from_hyper, h, compress_response_body]
  · rw [Bool.not_eq_true] at h
    simp [api_gateway_response_from_hyper, h]

theorem agr_headers (brotli : List Nat → CompressorRun) (r : HyperResponse)
    (cbr mv : Bool) :
    (api_gateway_response_from_hyper brotli r cbr mv).headers =
      (if cbr && can_brotli_compress r then
         insertJ (buildHeaderMap mv r.headers).2 "content-encoding"
           (if mv then JVal.arr ["br"] else JVal.str "br")
       else (buildHeaderMap mv r.headers).2) := by
  by_cases h : (cbr && can_brotli_compress r) = true
  · cases mv <;> simp [api_gateway_response_from_hyper, h]
  · rw [Bool.not_eq_true] at h
    cases mv <;> simp [api_gateway_response_from_hyper, h]

theorem agr_cookies (brotli : List Nat → CompressorRun) (r : HyperResponse)
    (cbr mv : Bool) :
    (api_gateway_response_from_hyper brotli r cbr mv).cookies =
      (if mv then none else some (valsOf "set-cookie" r.headers)) := by
  have hc : (buildHeaderMap mv r.headers).1 =
      (if mv then [] else valsOf "set-cookie" r.headers) := by
    cases mv
    · simpa using buildAux_false_cookies r.headers [] []
    · simpa using buildAux_true_cookies r.headers [] []
  by_cases h : (cbr && can_brotli_compress r) = true <;>
    cases mv <;>
      simp_all [api_gateway_response_from_hyper]

theorem valsOf_eq_nil (k : String) (hs : List (String × String))
    (h : ∀ p ∈ hs, p.1 ≠ k) : valsOf k hs = [] := by
  induction hs with
  | nil => rfl
  | cons p rest ih =>
    obtain ⟨k', v⟩ := p
    simp only [valsOf]
    rw [if_neg (h (k', v) (by simp)), ih (fun q hq => h q (by simp [hq]))]

theorem lastVal_eq_none (k : String) (hs : List (String × String))
    (h : ∀ p ∈ hs, p.1 ≠ k) : lastVal k hs = none := by
  induction hs with
  | nil => rfl
  | cons p rest ih =>
    obtain ⟨k', v⟩ := p
    simp only [lastVal]
    rw [ih (fun q hq => h q (by simp [hq]))]
    simp [h (k', v) (by simp)]

theorem contentEncodingOf_none_forall (r : HyperResponse)
    (h : contentEncodingOf r = none) :
    ∀ p ∈ r.headers, p.1 ≠ "content-encoding" := by
  intro p hp hc
  unfold contentEncodingOf at h
  rw [Option.map_eq_none'] at h
  rw [List.find?_eq_none] at h
  exact absurd (by simp [hc]) (h p hp)

theorem lookup_ce_buildHeaderMap (r : HyperResponse) (mv : Bool)
    (h : contentEncodingOf r = none) :
    lookupJ "content-encoding" (buildHeaderMap mv r.headers).2 = none := by
  have hall := contentEncodingOf_none_forall r h
  cases mv
  · unfold buildHeaderMap
    rw [buildAux_false_lookup _ _ _ _ (by decide),
      lastVal_eq_none _ _ hall]
    rfl
  · unfold buildHeaderMap
    rw [buildAux_true_lookup, valsOf_eq_nil _ _ hall]
    rfl

/-- The specification's compression eligibility rule: never when the
response already carries a Content-Encoding header; otherwise only when
the client accepts brotli and the response's Content-Type
(case-insensitively) starts with one of the compressible prefixes. -/
def specCompressEligible (client_br : Bool) (r : HyperResponse) : Bool :=
  match contentEncodingOf r with
  | some _ => false
  | none =>
    client_br &&
      (match contentTypeOf r with
       | some header_val =>
         let ctype := (asciiLower (trimStr header_val)).data
         "text/".data.isPrefixOf ctype ||
         "application/json".data.isPrefixOf ctype ||
         "application/xhtml".data.isPrefixOf ctype ||
         "application/xml".data.isPrefixOf ctype ||
         "application/wasm".data.isPrefixOf ctype ||
         "image/svg".data.isPrefixOf ctype
       | none => false)

theorem compressCond_eq_spec (cbr : Bool) (r : HyperResponse) :
    (cbr && can_brotli_compress r) = specCompressEligible cbr r := by
  unfold can_brotli_compress specCompressEligible
  cases hce : contentEncodingOf r
  · cases hct : contentTypeOf r
    · simp
    · simp
  · simp

/-! ### Claims C4, C8, C9, C10 -/

/-- C4: the brotli compressor is applied exactly when the response has
no Content-Encoding header, the client accepts brotli, and the
Content-Type starts (case-insensitively) with a compressible prefix;
otherwise the body is base64-encoded unchanged and no Content-Encoding
is added, and when eligible the compressor output is base64-encoded and
Content-Encoding `br` is reported as a string for the v2 envelope and a
one-element list for the multi-value envelope. -/
theorem C4_brotli_eligibility :
    ∀ (brotli : List Nat → CompressorRun) (r : HyperResponse) (cbr mv : Bool),
      ((api_gateway_response_from_hyper brotli r cbr mv).body =
        (if specCompressEligible cbr r then base64Encode (brotli r.body).written
         else base64Encode r.body)) ∧
      (specCompressEligible cbr r = true →
        lookupJ "content-encoding"
          (api_gateway_response_from_hyper brotli r cbr mv).headers =
          some (if mv then JVal.arr ["br"] else JVal.str "br")) ∧
      (specCompressEligible cbr r = false → contentEncodingOf r = none →
        lookupJ "content-encoding"
          (api_gateway_response_from_hyper brotli r cbr mv).headers = none) := by
  intro brotli r cbr mv
  have hcond := compressCond_eq_spec cbr r
  refine ⟨?_, ?_, ?_⟩
  · rw [agr_body, hcond]
  · intro he
    have h : (cbr && can_brotli_compress r) = true := by rw [hcond, he]
    rw [agr_headers, if_pos h, lookupJ_insertJ_self]
  · intro he hce
    have h : ¬(cbr && can_brotli_compress r) = true := by
      rw [hcond, he]
      decide
    rw [agr_headers, if_neg h]
    exact lookup_ce_buildHeaderMap r mv hce

/-- C4 witness: a `text/html` response with a brotli-capable client gets
Content-Encoding `br` in the v2 envelope, while an `image/png` response
is not eligible and gets no Content-Encoding in the multi-value
envelope. -/
theorem C4_brotli_eligibility_witness :
    specCompressEligible true ⟨200, [("content-type", "text/html")], [104, 105]⟩ = true ∧
    lookupJ "content-encoding"
      (api_gateway_response_from_hyper (fun _ => ⟨[11], true⟩)
        ⟨200, [("content-type", "text/html")], [104, 105]⟩ true false).headers =
      some (JVal.str "br") ∧
    specCompressEligible true ⟨200, [("content-type", "image/png")], [104]⟩ = false ∧
    lookupJ "content-encoding"
      (api_gateway_response_from_hyper (fun _ => ⟨[11], true⟩)
        ⟨200, [("content-type", "image/png")], [104]⟩ true true).headers = none :=
  ⟨by decide,
   ((C4_brotli_eligibility (fun _ => ⟨[11], true⟩)
      ⟨200, [("content-type", "text/html")], [104, 105]⟩ true false).2.1
      (by decide)).trans (by decide),
   by decide,
   (C4_brotli_eligibility (fun _ => ⟨[11], true⟩)
      ⟨200, [("content-type", "image/png")], [104]⟩ true true).2.2
      (by decide) (by decide)⟩

/-- C8: with the v2 envelope every header literally named `set-cookie`
is excluded from the output headers map and its values go, in order,
into the top-level cookies array; with the multi-value envelope there is
no cookies array and `set-cookie` stays in the map as an ordinary array
entry. -/
theorem C8_set_cookie_handling :
    ∀ (brotli : List Nat → CompressorRun) (r : HyperResponse) (cbr : Bool),
      lookupJ "set-cookie"
        (api_gateway_response_from_hyper brotli r cbr false).headers = none ∧
      (api_gateway_response_from_hyper brotli r cbr false).cookies =
        some (valsOf "set-cookie" r.headers) ∧
      (api_gateway_response_from_hyper brotli r cbr true).cookies = none ∧
      lookupJ "set-cookie"
        (api_gateway_response_from_hyper brotli r cbr true).headers =
        mvCombine none (valsOf "set-cookie" r.headers) := by
  intro brotli r cbr
  have hv2m : lookupJ "set-cookie" (buildHeaderMap false r.headers).2 = none := by
    unfold buildHeaderMap
    rw [buildAux_false_lookup_sc]
    rfl
  have hmvm : lookupJ "set-cookie" (buildHeaderMap true r.headers).2 =
      mvCombine none (valsOf "set-cookie" r.headers) := by
    unfold buildHeaderMap
    rw [buildAux_true_lookup]
    rfl
  refine ⟨?_, ?_, ?_, ?_⟩
  · rw [agr_headers]
    by_cases h : (cbr && can_brotli_compress r) = true
    · rw [if_pos h, lookupJ_insertJ_ne _ _ _ (by decide)]
      exact hv2m
    · rw [if_neg h]
      exact hv2m
  · rw [agr_cookies]
    rfl
  · rw [agr_cookies]
    rfl
  · rw [agr_headers]
    by_cases h : (cbr && can_brotli_compress r) = true
    · rw [if_pos h, lookupJ_insertJ_ne _ _ _ (by decide)]
      exact hmvm
    · rw [if_neg h]
      exact hmvm

/-- C9 counterexample: the claim says a failing compressor falls back to
the base64 of the uncompressed body, but the code discards the
compressor's result: a compressor run that fails after writing nothing
yields an empty body where the claimed fallback would be `aGk=`. -/
theorem C9_counterexample :
    (api_gateway_response_from_hyper (fun _ => ⟨[], false⟩)
      ⟨200, [("content-type", "text/html")], [104, 105]⟩ true false).body = "" ∧
    base64Encode [104, 105] = "aGk=" ∧
    ("" : String) ≠ "aGk=" :=
  ⟨by decide, by decide, by decide⟩

/-- C9 amended: a compressor failure is never surfaced — the serialized
body depends only on the bytes the compressor wrote, never on its
success flag — but there is no fallback either: when the response is
eligible the body is the base64 of whatever the compressor wrote. -/
theorem C9_compressor_failure_silent :
    ∀ (brotli : List Nat → CompressorRun) (r : HyperResponse) (cbr mv : Bool),
      ((api_gateway_response_from_hyper brotli r cbr mv).body =
        (if cbr && can_brotli_compress r then base64Encode (brotli r.body).written
         else base64Encode r.body)) ∧
      api_gateway_response_from_hyper brotli r cbr mv =
        api_gateway_response_from_hyper (fun b => ⟨(brotli b).written, true⟩) r cbr mv :=
  fun brotli r cbr mv => ⟨agr_body brotli r cbr mv, rfl⟩

/-- C10: with the v2 envelope, duplicate response headers (other than
set-cookie) collapse to the last value in iteration order, because the
single-valued map insert overwrites; the multi-value envelope preserves
all values in order as an array. -/
theorem C10_duplicate_header_last_wins :
    ∀ (brotli : List Nat → CompressorRun) (r : HyperResponse) (cbr : Bool)
      (k : String),
      k ≠ "set-cookie" → 2 ≤ (valsOf k r.headers).length →
      lookupJ k (api_gateway_response_from_hyper brotli r cbr false).headers =
        (lastVal k r.headers).map JVal.str ∧
      lookupJ k (api_gateway_response_from_hyper brotli r cbr true).headers =
        some (JVal.arr (valsOf k r.headers)) := by
  intro brotli r cbr k hk hlen
  have hv2 : lookupJ k (buildHeaderMap false r.headers).2 =
      (lastVal k r.headers).map JVal.str := by
    unfold buildHeaderMap
    rw [buildAux_false_lookup _ _ _ _ hk]
    cases lastVal k r.headers <;> rfl
  have hmv : lookupJ k (buildHeaderMap true r.headers).2 =
      some (JVal.arr (valsOf k r.headers)) := by
    unfold buildHeaderMap
    rw [buildAux_true_lookup]
    cases hv : valsOf k r.headers with
    | nil =>
      rw [hv] at hlen
      simp at hlen
    | cons a as => rfl
  by_cases hce : k = "content-encoding"
  · have hvne : valsOf k r.headers ≠ [] := by
      intro hnil
      rw [hnil] at hlen
      simp at hlen
    have hcen : contentEncodingOf r ≠ none := by
      intro hnone
      exact hvne (valsOf_eq_nil _ _
        (fun p hp => hce ▸ contentEncodingOf_none_forall r hnone p hp))
    have hcb : can_brotli_compress r = false := by
      unfold can_brotli_compress
      cases hc : contentEncodingOf r with
      | none => exact absurd hc hcen
      | some s => rfl
    have hfalse : ¬(cbr && can_brotli_compress r) = true := by
      simp [hcb]
    constructor
    · rw [agr_headers, if_neg hfalse]
      exact hv2
    · rw [agr_headers, if_neg hfalse]
      exact hmv
  · constructor
    · rw [agr_headers]
      by_cases h : (cbr && can_brotli_compress r) = true
      · rw [if_pos h, lookupJ_insertJ_ne _ _ _ hce]
        exact hv2
      · rw [if_neg h]
        exact hv2
    · rw [agr_headers]
      by_cases h : (cbr && can_brotli_compress r) = true
      · rw [if_pos h, lookupJ_insertJ_ne _ _ _ hce]
        exact hmv
      · rw [if_neg h]
        exact hmv

/-- C10 witness: a response carrying `x-test: 1` and `x-test: 2` keeps
only `2` in the v2 headers map and keeps `[1, 2]` in the multi-value
map. -/
theorem C10_duplicate_header_last_wins_witness :
    lookupJ "x-test"
      (api_gateway_response_from_hyper (fun _ => ⟨[], true⟩)
        ⟨200, [("x-test", "1"), ("x-test", "2")], []⟩ false false).headers =
      some (JVal.str "2") ∧
    lookupJ "x-test"
      (api_gateway_response_from_hyper (fun _ => ⟨[], true⟩)
        ⟨200, [("x-test", "1"), ("x-test", "2")], []⟩ false true).headers =
      some (JVal.arr ["1", "2"]) :=
  ⟨((C10_duplicate_header_last_wins (fun _ => ⟨[], true⟩)
      ⟨200, [("x-test", "1"), ("x-test", "2")], []⟩ false "x-test"
      (by decide) (by decide)).1).trans (by decide),
   ((C10_duplicate_header_last_wins (fun _ => ⟨[], true⟩)
      ⟨200, [("x-test", "1"), ("x-test", "2")], []⟩ false "x-test"
      (by decide) (by decide)).2).trans (by decide)⟩

end LambdaWeb
